import Mathlib

/-!
Verification of the momentum scoring engine of the doit-tracker habit
application, against a shallow embedding of the source.

Dates are modelled as integer day numbers (the source uses YYYY-MM-DD
strings, totally ordered, with day granularity); weeks are 7-day windows
and in user-level functions a date d belongs to the week starting at
d - d % 7 (Monday-based weeks in the source).  Records of a single habit
are lists of HabitRecord; user-level functions take records tagged with a
habit id.  All definitions are translated from src/unnamed/part_002
(the current lib/habits.ts) and src/unnamed/part_001 (the cron sweep).
-/

/-- A habit tracking record: a calendar date (day number), the completion
count for that date, and the momentum computed for that date. -/
structure HabitRecord where
  date : Int
  completed : Nat
  momentum : Int
deriving DecidableEq, Repr

/-- Lookup of the record for one date (query eq(date) limit 1,
getHabitRecordForDate). -/
def recordForDate (recs : List HabitRecord) (d : Int) : Option HabitRecord :=
  recs.find? (fun r => r.date == d)

/-- The most recent record strictly before a date (query lt(date)
orderBy desc(date) limit 1). -/
def latestBefore (recs : List HabitRecord) (d : Int) : Option HabitRecord :=
  (recs.filter (fun r => r.date < d)).foldl
    (fun acc r =>
      match acc with
      | none => some r
      | some b => if b.date < r.date then some r else some b)
    none

/-- calculateDailyHabitMomentum from lib/habits.ts: with a completion,
continue a streak from a completed previous-day record with a +7 cap,
otherwise start at 1; without a completion, decrement an already negative
most-recent momentum with a -3 floor, otherwise 0. -/
def calcDailyMomentum (recs : List HabitRecord) (date : Int) (completed : Nat) : Int :=
  if 0 < completed then
    match recordForDate recs (date - 1) with
    | some pr => if 0 < pr.completed then min (pr.momentum + 1) 7 else 1
    | none => 1
  else
    match latestBefore recs date with
    | some pr => if pr.momentum < 0 then max (pr.momentum - 1) (-3) else 0
    | none => 0

/-- One day of the reference daily streak: day n+1 is completed and gets the
momentum the daily calculator assigns given the records of days 1..n. -/
def dailyStreakState : Nat → List HabitRecord
  | 0 => []
  | n + 1 =>
    dailyStreakState n ++
      [⟨(n : Int) + 1, 1, calcDailyMomentum (dailyStreakState n) ((n : Int) + 1) 1⟩]

/-- The momentum the daily calculator assigns on day n of an unbroken
completed streak starting on day 1. -/
def dailyStreakMomentum (n : Nat) : Int :=
  calcDailyMomentum (dailyStreakState (n - 1)) (n : Int) 1

lemma dailyStreakState_dates :
    ∀ n, ∀ r ∈ dailyStreakState n, 1 ≤ r.date ∧ r.date ≤ (n : Int) := by
  intro n
  induction n with
  | zero => intro r hr; simp [dailyStreakState] at hr
  | succ n ih =>
    intro r hr
    simp only [dailyStreakState, List.mem_append, List.mem_singleton] at hr
    rcases hr with hr | hr
    · rcases ih r hr with ⟨h1, h2⟩
      exact ⟨h1, by omega⟩
    · subst hr
      constructor
      · show (1 : Int) ≤ (n : Int) + 1
        omega
      · show (n : Int) + 1 ≤ ((n + 1 : Nat) : Int)
        push_cast
        omega

lemma recordForDate_append_last (recs : List HabitRecord) (r : HabitRecord)
    (h : ∀ x ∈ recs, x.date ≠ r.date) :
    recordForDate (recs ++ [r]) r.date = some r := by
  unfold recordForDate
  rw [List.find?_append]
  have hnone : recs.find? (fun x => x.date == r.date) = none := by
    rw [List.find?_eq_none]
    intro x hx
    simpa using h x hx
  simp [hnone]

lemma dailyStreakMomentum_succ (n : Nat) :
    dailyStreakMomentum (n + 1) = min ((n : Int) + 1) 7 := by
  induction n with
  | zero =>
    simp [dailyStreakMomentum, dailyStreakState, calcDailyMomentum, recordForDate]
  | succ n ih =>
    unfold dailyStreakMomentum at *
    simp only [Nat.add_sub_cancel] at *
    have hstate : dailyStreakState (n + 1) =
        dailyStreakState n ++
          [⟨(n : Int) + 1, 1, calcDailyMomentum (dailyStreakState n) ((n : Int) + 1) 1⟩] := rfl
    have hfind : recordForDate (dailyStreakState (n + 1)) ((n : Int) + 1) =
        some ⟨(n : Int) + 1, 1, calcDailyMomentum (dailyStreakState n) ((n : Int) + 1) 1⟩ := by
      rw [hstate]
      exact recordForDate_append_last _ _
        (fun x hx => by
          have := dailyStreakState_dates n x hx
          simp only []
          omega)
    have hcast : ((n + 1 : Nat) : Int) = (n : Int) + 1 := by push_cast; ring
    unfold calcDailyMomentum
    simp only [if_pos (by norm_num : (0 : Nat) < 1)]
    have harg : ((n + 1 + 1 : Nat) : Int) - 1 = (n : Int) + 1 := by push_cast; ring
    rw [harg, hfind]
    simp only [if_pos (by norm_num : (0 : Nat) < 1)]
    have hm : calcDailyMomentum (dailyStreakState n) ((n : Int) + 1) 1 = min ((n : Int) + 1) 7 := by
      have := ih
      rw [hcast] at this
      exact this
    rw [hm]
    push_cast
    omega

/-- C1: with a completion today, the daily calculator returns
min(prior momentum + 1, 7) when the previous calendar day has a completed
record, and exactly 1 otherwise; consequently on day N of an unbroken
completed streak with N at least 7 the momentum is exactly 7. -/
theorem daily_momentum_completed_spec :
    (∀ (recs : List HabitRecord) (d : Int) (c : Nat), 0 < c →
      (∀ pr, recordForDate recs (d - 1) = some pr → 0 < pr.completed →
        calcDailyMomentum recs d c = min (pr.momentum + 1) 7) ∧
      (∀ pr, recordForDate recs (d - 1) = some pr → pr.completed = 0 →
        calcDailyMomentum recs d c = 1) ∧
      (recordForDate recs (d - 1) = none → calcDailyMomentum recs d c = 1)) ∧
    (∀ N : Nat, 7 ≤ N → dailyStreakMomentum N = 7) := by
  constructor
  · intro recs d c hc
    refine ⟨?_, ?_, ?_⟩
    · intro pr hpr hcomp
      simp [calcDailyMomentum, hc, hpr, hcomp]
    · intro pr hpr hcomp
      simp [calcDailyMomentum, hc, hpr, hcomp]
    · intro hnone
      simp [calcDailyMomentum, hc, hnone]
  · intro N hN
    obtain ⟨n, rfl⟩ : ∃ n, N = n + 1 := ⟨N - 1, by omega⟩
    rw [dailyStreakMomentum_succ]
    omega

/-- Witness for C1 at concrete inputs: a prior-day completed record with
momentum 3 yields 4, and day 9 of an unbroken streak has momentum 7. -/
theorem daily_momentum_completed_spec_witness :
    calcDailyMomentum [⟨4, 1, 3⟩] 5 1 = min (3 + 1) 7 ∧ dailyStreakMomentum 9 = 7 :=
  ⟨(daily_momentum_completed_spec.1 [⟨4, 1, 3⟩] 5 1 (by decide)).1
      ⟨4, 1, 3⟩ (by decide) (by decide),
    daily_momentum_completed_spec.2 9 (by decide)⟩

/-- The most recent record strictly before a date with completed = 0
(query eq(completed, 0), lt(date) orderBy desc(date) limit 1 in the cron
sweep). -/
def latestMissedBefore (recs : List HabitRecord) (d : Int) : Option HabitRecord :=
  ((recs.filter (fun r => r.completed == 0)).filter (fun r => r.date < d)).foldl
    (fun acc r =>
      match acc with
      | none => some r
      | some b => if b.date < r.date then some r else some b)
    none

/-- The momentum penalty the daily cron sweep (processDailyMissedHabits)
computes for a habit with no record dated yesterday: strictly positive
prior momentum resets to 0, any other prior momentum is decremented with
a -3 floor; with no prior record at all, the most recent synthesized
missed-day record is decremented instead, defaulting to 0. -/
def sweepDailyPenalty (recs : List HabitRecord) (yesterday : Int) : Int :=
  match latestBefore recs yesterday with
  | some last =>
    if 0 < last.momentum then 0
    else max (last.momentum - 1) (-3)
  | none =>
    match latestMissedBefore recs yesterday with
    | some lm => max (lm.momentum - 1) (-3)
    | none => 0

/-- C2 counterexample: with a single prior record of momentum 0, the
daily sweep synthesizes -1 while the daily calculator's not-completed
rule gives 0, so the sweep does not apply the same rule. -/
theorem sweep_daily_not_same_rule_cex :
    sweepDailyPenalty [⟨0, 1, 0⟩] 1 = -1 ∧ calcDailyMomentum [⟨0, 1, 0⟩] 1 0 = 0 ∧
      ¬ sweepDailyPenalty [⟨0, 1, 0⟩] 1 = calcDailyMomentum [⟨0, 1, 0⟩] 1 0 := by
  refine ⟨by decide, by decide, by decide⟩

lemma latestBefore_none_filter (recs : List HabitRecord) (d : Int)
    (h : latestBefore recs d = none) :
    recs.filter (fun r => r.date < d) = [] := by
  unfold latestBefore at h
  rcases hf : recs.filter (fun r => r.date < d) with _ | ⟨a, l⟩
  · exact hf
  · exfalso
    rw [hf] at h
    have : ∀ (acc : Option HabitRecord) (l : List HabitRecord), acc ≠ none →
        l.foldl (fun acc r =>
          match acc with
          | none => some r
          | some b => if b.date < r.date then some r else some b) acc ≠ none := by
      intro acc l
      induction l generalizing acc with
      | nil => intro hne; simpa using hne
      | cons x xs ih =>
        intro hne
        simp only [List.foldl_cons]
        rcases acc with _ | b
        · exact ih (some x) (by simp)
        · by_cases hbx : b.date < x.date
          · simpa [hbx] using ih (some x) (by simp)
          · simpa [hbx] using ih (some b) (by simp)
    exact this (some a) l (by simp) h

/-- C2 amended: without a completion the daily calculator returns 0 when no
record exists before the date, max(m - 1, -3) when the most recent earlier
record has negative momentum m, and 0 when that momentum is nonnegative;
the daily sweep applies the same rule except that a most recent earlier
record with momentum exactly 0 is decremented to -1 instead of kept at 0
(it agrees with the calculator whenever that momentum is nonzero). -/
theorem daily_miss_rule_and_sweep_spec :
    ∀ (recs : List HabitRecord) (d : Int),
      (latestBefore recs d = none → calcDailyMomentum recs d 0 = 0) ∧
      (∀ pr, latestBefore recs d = some pr → pr.momentum < 0 →
        calcDailyMomentum recs d 0 = max (pr.momentum - 1) (-3)) ∧
      (∀ pr, latestBefore recs d = some pr → 0 ≤ pr.momentum →
        calcDailyMomentum recs d 0 = 0) ∧
      (∀ pr, latestBefore recs d = some pr → 0 < pr.momentum →
        sweepDailyPenalty recs d = 0) ∧
      (∀ pr, latestBefore recs d = some pr → pr.momentum ≤ 0 →
        sweepDailyPenalty recs d = max (pr.momentum - 1) (-3)) ∧
      (∀ pr, latestBefore recs d = some pr → pr.momentum ≠ 0 →
        sweepDailyPenalty recs d = calcDailyMomentum recs d 0) ∧
      (latestBefore recs d = none → sweepDailyPenalty recs d = 0) := by
  intro recs d
  refine ⟨?_, ?_, ?_, ?_, ?_, ?_, ?_⟩
  · intro h; simp [calcDailyMomentum, h]
  · intro pr hpr hm; simp [calcDailyMomentum, hpr, hm]
  · intro pr hpr hm
    simp only [calcDailyMomentum, hpr]
    simp only [if_neg (by norm_num : ¬ (0 : Nat) < 0)]
    rw [if_neg (by omega : ¬ pr.momentum < 0)]
  · intro pr hpr hm; simp [sweepDailyPenalty, hpr, hm]
  · intro pr hpr hm
    simp only [sweepDailyPenalty, hpr]
    rw [if_neg (by omega : ¬ 0 < pr.momentum)]
  · intro pr hpr hm
    by_cases hneg : pr.momentum < 0
    · simp only [sweepDailyPenalty, calcDailyMomentum, hpr]
      simp only [if_neg (by norm_num : ¬ (0 : Nat) < 0)]
      rw [if_neg (by omega : ¬ 0 < pr.momentum), if_pos hneg]
    · simp [sweepDailyPenalty, calcDailyMomentum, hpr, hneg, (by omega : 0 < pr.momentum)]
  · intro h
    have hmiss : latestMissedBefore recs d = none := by
      unfold latestMissedBefore
      have hfil := latestBefore_none_filter recs d h
      have : (recs.filter (fun r => r.completed == 0)).filter (fun r => r.date < d) = [] := by
        rw [List.filter_comm, hfil]
        simp
      rw [this]
      rfl
    simp [sweepDailyPenalty, h, hmiss]

/-- Witness for C2 amended at concrete inputs: a prior record of momentum
-2 gives -3 from both the calculator and the sweep. -/
theorem daily_miss_rule_and_sweep_spec_witness :
    calcDailyMomentum [⟨0, 0, -2⟩] 1 0 = max (-2 - 1) (-3) ∧
      sweepDailyPenalty [⟨0, 0, -2⟩] 1 = calcDailyMomentum [⟨0, 0, -2⟩] 1 0 :=
  ⟨(daily_miss_rule_and_sweep_spec [⟨0, 0, -2⟩] 1).2.1 ⟨0, 0, -2⟩ (by decide) (by decide),
    (daily_miss_rule_and_sweep_spec [⟨0, 0, -2⟩] 1).2.2.2.2.2.1 ⟨0, 0, -2⟩
      (by decide) (by decide)⟩

/-- The momentum createOrUpdateHabitRecord decides to apply for a daily
habit when no explicit momentum is passed: after a gap of more than one
day since the most recent record, a completion resets to 1 and a miss
gets max(-dayGap, -3); on a one-day gap the usual streak and miss rules
apply, with a prior momentum of 0 or less decremented (floor -3); with no
prior record at all, 1 on completion and 0 otherwise. -/
def recordMomentumForDaily (recs : List HabitRecord) (date : Int) (completed : Nat) : Int :=
  match latestBefore recs date with
  | some last =>
    let dayGap := date - last.date
    if 1 < dayGap then
      if 0 < completed then 1 else max (-dayGap) (-3)
    else if 0 < completed then
      if 0 < last.completed then min (last.momentum + 1) 7 else 1
    else
      if 0 < last.momentum then 0 else max (last.momentum - 1) (-3)
  | none => if 0 < completed then 1 else 0

/-- C6 counterexample: after a 3-day gap since a record with positive
momentum 5, recording a miss applies max(-3, -3) = -3, while a single
application of the calculator's not-completed rule on that record
gives 0; the write path scales with the gap instead of applying the
single-step rule. -/
theorem gap_write_not_single_step_cex :
    recordMomentumForDaily [⟨0, 1, 5⟩] 3 0 = -3 ∧
      calcDailyMomentum [⟨0, 1, 5⟩] 3 0 = 0 ∧
      ¬ recordMomentumForDaily [⟨0, 1, 5⟩] 3 0 = calcDailyMomentum [⟨0, 1, 5⟩] 3 0 := by
  refine ⟨by decide, by decide, by decide⟩

/-- C6 amended: the read-path daily calculator applies the not-completed
rule once on the most recent record regardless of the gap length (its
result depends only on that record's momentum, not its date), and returns
exactly 1 when today is completed after a gap; but the write path
(createOrUpdateHabitRecord) on a gap of more than one day with no
completion applies max(-dayGap, -3), one step per elapsed day from zero,
ignoring the last record's momentum. -/
theorem gap_momentum_spec :
    ∀ (recs : List HabitRecord) (d : Int) (pr : HabitRecord),
      latestBefore recs d = some pr →
      (calcDailyMomentum recs d 0 =
        (if pr.momentum < 0 then max (pr.momentum - 1) (-3) else 0)) ∧
      (∀ c : Nat, 0 < c → 1 < d - pr.date → recordMomentumForDaily recs d c = 1) ∧
      (1 < d - pr.date → recordMomentumForDaily recs d 0 = max (-(d - pr.date)) (-3)) := by
  intro recs d pr hpr
  refine ⟨?_, ?_, ?_⟩
  · simp [calcDailyMomentum, hpr]
  · intro c hc hgap
    simp only [recordMomentumForDaily, hpr]
    rw [if_pos hgap, if_pos hc]
  · intro hgap
    simp only [recordMomentumForDaily, hpr]
    rw [if_pos hgap, if_neg (by norm_num : ¬ (0 : Nat) < 0)]

/-- Witness for C6 amended at concrete inputs: gap of 5 days since a
record of momentum 2; read path gives 0, completing gives 1, and the
missed write gives max(-5, -3) = -3. -/
theorem gap_momentum_spec_witness :
    calcDailyMomentum [⟨0, 1, 2⟩] 5 0 = (if (2 : Int) < 0 then max (2 - 1) (-3) else 0) ∧
      recordMomentumForDaily [⟨0, 1, 2⟩] 5 1 = 1 ∧
      recordMomentumForDaily [⟨0, 1, 2⟩] 5 0 = max (-(5 - 0)) (-3) :=
  ⟨(gap_momentum_spec [⟨0, 1, 2⟩] 5 ⟨0, 1, 2⟩ (by decide)).1,
    (gap_momentum_spec [⟨0, 1, 2⟩] 5 ⟨0, 1, 2⟩ (by decide)).2.1 1 (by decide) (by decide),
    (gap_momentum_spec [⟨0, 1, 2⟩] 5 ⟨0, 1, 2⟩ (by decide)).2.2 (by decide)⟩

/-- Habit kind: daily or weekly. -/
inductive HabitType
  | daily
  | weekly
deriving DecidableEq, Repr

/-- A habit entity: kind, optional weekly target, cached accumulated
momentum, and archival flag. -/
structure Habit where
  type : HabitType
  targetCount : Option Nat
  accumulatedMomentum : Int
  archived : Bool
deriving DecidableEq, Repr

/-- The persistent state touched by createOrUpdateHabitRecord for one
habit: the habit row and its records. -/
structure HabitState where
  habit : Habit
  records : List HabitRecord
deriving DecidableEq, Repr

/-- The momentum the upsert decides to store: for a daily habit with no
explicit momentum the write-path daily rule, otherwise the explicit
momentum if any. -/
def upsertMomentumToApply (st : HabitState) (date : Int) (completed : Nat)
    (momentum : Option Int) : Option Int :=
  if st.habit.type = .daily ∧ momentum = none then
    some (recordMomentumForDaily st.records date completed)
  else momentum

/-- The old momentum used for the accumulated-momentum delta: the
existing record for the date if any, else for daily habits the most
recent prior record's momentum, else 0. -/
def upsertOldMomentum (st : HabitState) (date : Int) : Int :=
  match recordForDate st.records date with
  | some ex => ex.momentum
  | none =>
    if st.habit.type = .daily then
      match latestBefore st.records date with
      | some last => last.momentum
      | none => 0
    else 0

/-- The momentum actually stored on the new or updated record. -/
def upsertNewMomentum (st : HabitState) (date : Int) (completed : Nat)
    (momentum : Option Int) : Int :=
  let mta := upsertMomentumToApply st date completed momentum
  match recordForDate st.records date with
  | some ex => mta.getD ex.momentum
  | none => mta.getD 0

/-- The record list after the upsert: update in place when a record for
the date exists, append a new record otherwise. -/
def upsertRecords (st : HabitState) (date : Int) (completed : Nat)
    (momentum : Option Int) : List HabitRecord :=
  let newM := upsertNewMomentum st date completed momentum
  match recordForDate st.records date with
  | some _ =>
    st.records.map (fun r => if r.date == date then ⟨r.date, completed, newM⟩ else r)
  | none => st.records ++ [⟨date, completed, newM⟩]

/-- createOrUpdateHabitRecord from lib/habits.ts as a state transformer:
upsert the record, then for daily habits add the momentum delta to the
habit's accumulated momentum (skipping the write when the delta is 0);
weekly habits leave the habit row untouched (the cron updates it at week
end). -/
def createOrUpdateHabitRecord (st : HabitState) (date : Int) (completed : Nat)
    (momentum : Option Int) : HabitState :=
  let newRecords := upsertRecords st date completed momentum
  if st.habit.type = .weekly then
    ⟨st.habit, newRecords⟩
  else
    let netChange := upsertNewMomentum st date completed momentum - upsertOldMomentum st date
    if netChange = 0 then ⟨st.habit, newRecords⟩
    else
      ⟨{ st.habit with accumulatedMomentum := st.habit.accumulatedMomentum + netChange },
        newRecords⟩

/-- C8 counterexample: a weekly habit whose record momentum changes from
0 to 5 (delta 5) keeps accumulatedMomentum unchanged, so the upsert does
not add the delta on every call. -/
theorem accumulated_weekly_cex :
    (createOrUpdateHabitRecord ⟨⟨.weekly, some 2, 0, false⟩, [⟨3, 0, 0⟩]⟩ 3 1
        (some 5)).habit.accumulatedMomentum = 0 ∧
      upsertNewMomentum ⟨⟨.weekly, some 2, 0, false⟩, [⟨3, 0, 0⟩]⟩ 3 1 (some 5) -
        upsertOldMomentum ⟨⟨.weekly, some 2, 0, false⟩, [⟨3, 0, 0⟩]⟩ 3 = 5 ∧
      ¬ ((createOrUpdateHabitRecord ⟨⟨.weekly, some 2, 0, false⟩, [⟨3, 0, 0⟩]⟩ 3 1
          (some 5)).habit.accumulatedMomentum = 0 + 5) := by
  refine ⟨by decide, by decide, by decide⟩

/-- C8 amended: for daily habits the upsert adds exactly the momentum
delta (new stored momentum minus the old momentum, which is the existing
record's value or, for a fresh record, the most recent prior record's
value) to accumulatedMomentum, leaving it unchanged when the delta is 0,
and modifies no other habit field; for weekly habits the habit row is
left completely unchanged. -/
theorem accumulated_momentum_spec :
    ∀ (st : HabitState) (date : Int) (completed : Nat) (momentum : Option Int),
      (st.habit.type = .weekly →
        (createOrUpdateHabitRecord st date completed momentum).habit = st.habit) ∧
      (st.habit.type = .daily →
        (createOrUpdateHabitRecord st date completed momentum).habit.accumulatedMomentum =
          st.habit.accumulatedMomentum +
            (upsertNewMomentum st date completed momentum - upsertOldMomentum st date) ∧
        (createOrUpdateHabitRecord st date completed momentum).habit.type = st.habit.type ∧
        (createOrUpdateHabitRecord st date completed momentum).habit.targetCount =
          st.habit.targetCount ∧
        (createOrUpdateHabitRecord st date completed momentum).habit.archived =
          st.habit.archived) := by
  intro st date completed momentum
  constructor
  · intro hw
    simp [createOrUpdateHabitRecord, hw]
  · intro hd
    have hnw : ¬ st.habit.type = HabitType.weekly := by rw [hd]; intro h; cases h
    unfold createOrUpdateHabitRecord
    rw [if_neg hnw]
    by_cases hz : upsertNewMomentum st date completed momentum - upsertOldMomentum st date = 0
    · rw [if_pos hz]
      refine ⟨?_, rfl, rfl, rfl⟩
      show st.habit.accumulatedMomentum = _
      omega
    · rw [if_neg hz]
      exact ⟨rfl, rfl, rfl, rfl⟩

/-- Witness for C8 amended at concrete inputs: a daily habit completing
into a fresh record after a prior record of momentum 1 moves
accumulatedMomentum from 4 to 4 + (2 - 1), while a weekly habit row is
untouched by an upsert. -/
theorem accumulated_momentum_spec_witness :
    (createOrUpdateHabitRecord ⟨⟨.weekly, some 2, 7, false⟩, []⟩ 0 1
        (some 3)).habit = ⟨.weekly, some 2, 7, false⟩ ∧
      (createOrUpdateHabitRecord ⟨⟨.daily, none, 4, false⟩, [⟨0, 1, 1⟩]⟩ 1 1
          none).habit.accumulatedMomentum =
        4 + (upsertNewMomentum ⟨⟨.daily, none, 4, false⟩, [⟨0, 1, 1⟩]⟩ 1 1 none -
          upsertOldMomentum ⟨⟨.daily, none, 4, false⟩, [⟨0, 1, 1⟩]⟩ 1) :=
  ⟨(accumulated_momentum_spec ⟨⟨.weekly, some 2, 7, false⟩, []⟩ 0 1 (some 3)).1 rfl,
    ((accumulated_momentum_spec ⟨⟨.daily, none, 4, false⟩, [⟨0, 1, 1⟩]⟩ 1 1 none).2 rfl).1⟩

/-- The effective weekly target: habit.targetCount with JS falsy default
2 (null and 0 both map to 2). -/
def effTarget : Option Nat → Nat
  | none => 2
  | some 0 => 2
  | some (n + 1) => n + 1

/-- Sum of the completed fields of a list of records (reduce with +). -/
def sumCompleted (recs : List HabitRecord) : Nat :=
  recs.foldl (fun s r => s + r.completed) 0

/-- First record with the maximal date of a list (head of a stable
descending sort by date). -/
def latestOf (recs : List HabitRecord) : Option HabitRecord :=
  recs.foldl
    (fun acc r =>
      match acc with
      | none => some r
      | some b => if b.date < r.date then some r else some b)
    none

/-- The consecutive-miss count calculateWeeklyHabitMomentum infers from
the momentum stored on the most recent record before the week: a stored
penalty of 0 means the week now ending is miss 2, a stored penalty of
-10 miss 3, of -20 or lower miss 4 or beyond. -/
def consecutiveMissCount (beforeWeek : List HabitRecord)
    (completions prevCompletions : Nat) : Nat :=
  match latestOf beforeWeek with
  | none => 1
  | some last =>
    if last.momentum < (completions : Int) then
      if last.momentum - (prevCompletions : Int) = 0 then 2
      else if last.momentum - (prevCompletions : Int) = -10 then 3
      else if last.momentum - (prevCompletions : Int) ≤ -20 then 4
      else 1
    else 2

/-- The weekly miss penalty ladder: miss 2 is -10, miss 3 is -20, miss 4
and beyond -30, anything else 0. -/
def missPenalty (cm : Nat) : Int :=
  if cm = 2 then -10 else if cm = 3 then -20 else if 4 ≤ cm then -30 else 0

/-- The single batched query of calculateWeeklyHabitMomentum: all records
from the previous week start through the week end. -/
def weekWindow (recs : List HabitRecord) (weekStart : Int) : List HabitRecord :=
  recs.filter (fun r => decide (weekStart - 7 ≤ r.date ∧ r.date ≤ weekStart + 6))

/-- In-memory part of calculateWeeklyHabitMomentum over the fetched
window: completions plus a +10 target bonus (doubled, then capped at 40,
when the previous week also reached target), or a consecutive-miss
penalty when neither this week nor the previous week reached target. -/
def weeklyFromWindow (allRecords : List HabitRecord) (targetCount : Option Nat)
    (weekStart : Int) : Int :=
  let currentWeekRecords :=
    allRecords.filter (fun r => decide (weekStart ≤ r.date ∧ r.date ≤ weekStart + 6))
  let previousWeekRecords :=
    allRecords.filter (fun r => decide (weekStart - 7 ≤ r.date ∧ r.date ≤ weekStart - 1))
  let completionsThisWeek := sumCompleted currentWeekRecords
  let prevWeekCompletions := sumCompleted previousWeekRecords
  let target := effTarget targetCount
  if target ≤ completionsThisWeek then
    if target ≤ prevWeekCompletions then
      min ((completionsThisWeek : Int) + 10 + 10) 40
    else (completionsThisWeek : Int) + 10
  else if ¬ target ≤ prevWeekCompletions then
    (completionsThisWeek : Int) +
      missPenalty (consecutiveMissCount
        (allRecords.filter (fun r => decide (r.date < weekStart)))
        completionsThisWeek prevWeekCompletions)
  else
    (completionsThisWeek : Int)

/-- calculateWeeklyHabitMomentum from lib/habits.ts: fetch the two-week
window in one query and compute the momentum from it. -/
def calcWeeklyMomentum (recs : List HabitRecord) (targetCount : Option Nat)
    (weekStart : Int) : Int :=
  weeklyFromWindow (weekWindow recs weekStart) targetCount weekStart

/-- Sum of completions over the week starting at a date (the week window
is the 7 days from weekStart through weekStart + 6). -/
def weekCompletions (recs : List HabitRecord) (weekStart : Int) : Nat :=
  sumCompleted (recs.filter (fun r => decide (weekStart ≤ r.date ∧ r.date ≤ weekStart + 6)))

lemma filter_weekWindow_sub (recs : List HabitRecord) (ws : Int)
    (q : HabitRecord → Prop) [DecidablePred q]
    (h : ∀ r, q r → ws - 7 ≤ r.date ∧ r.date ≤ ws + 6) :
    (weekWindow recs ws).filter (fun r => decide (q r)) =
      recs.filter (fun r => decide (q r)) := by
  unfold weekWindow
  rw [List.filter_filter]
  apply List.filter_congr
  intro r _
  by_cases hq : q r
  · have := h r hq
    simp [hq, this.1, this.2]
  · simp [hq]

lemma weeklyFromWindow_cur (recs : List HabitRecord) (ws : Int) :
    (weekWindow recs ws).filter (fun r => decide (ws ≤ r.date ∧ r.date ≤ ws + 6)) =
      recs.filter (fun r => decide (ws ≤ r.date ∧ r.date ≤ ws + 6)) :=
  filter_weekWindow_sub recs ws _ (fun r hr => ⟨by omega, hr.2⟩)

lemma weeklyFromWindow_prev (recs : List HabitRecord) (ws : Int) :
    (weekWindow recs ws).filter (fun r => decide (ws - 7 ≤ r.date ∧ r.date ≤ ws - 1)) =
      recs.filter (fun r => decide (ws - 7 ≤ r.date ∧ r.date ≤ ws - 1)) :=
  filter_weekWindow_sub recs ws _ (fun r hr => ⟨hr.1, by omega⟩)

lemma weekCompletions_prev (recs : List HabitRecord) (ws : Int) :
    weekCompletions recs (ws - 7) =
      sumCompleted (recs.filter (fun r => decide (ws - 7 ≤ r.date ∧ r.date ≤ ws - 1))) := by
  unfold weekCompletions
  congr 1
  apply List.filter_congr
  intro r _
  rw [decide_eq_decide]
  constructor <;> intro h <;> exact ⟨h.1, by omega⟩

/-- Closed form of the weekly calculator in terms of this and previous
week completion sums. -/
lemma calcWeekly_eq (recs : List HabitRecord) (tc : Option Nat) (ws : Int) :
    calcWeeklyMomentum recs tc ws =
      (if effTarget tc ≤ weekCompletions recs ws then
        (if effTarget tc ≤ weekCompletions recs (ws - 7) then
          min ((weekCompletions recs ws : Int) + 10 + 10) 40
        else (weekCompletions recs ws : Int) + 10)
      else if ¬ effTarget tc ≤ weekCompletions recs (ws - 7) then
        (weekCompletions recs ws : Int) +
          missPenalty (consecutiveMissCount
            ((weekWindow recs ws).filter (fun r => decide (r.date < ws)))
            (weekCompletions recs ws) (weekCompletions recs (ws - 7)))
      else (weekCompletions recs ws : Int)) := by
  unfold calcWeeklyMomentum weeklyFromWindow
  rw [weeklyFromWindow_cur, weeklyFromWindow_prev, weekCompletions_prev]
  rfl

/-- C4: when the week's summed completions reach the effective target
(default 2 when targetCount is unset), the weekly calculator returns
completions + 10, and when the immediately preceding week also reached
the target it returns min(completions + 20, 40), hence never more
than 40. -/
theorem weekly_target_bonus_spec :
    effTarget none = 2 ∧
    ∀ (recs : List HabitRecord) (tc : Option Nat) (ws : Int),
      effTarget tc ≤ weekCompletions recs ws →
      (weekCompletions recs (ws - 7) < effTarget tc →
        calcWeeklyMomentum recs tc ws = (weekCompletions recs ws : Int) + 10) ∧
      (effTarget tc ≤ weekCompletions recs (ws - 7) →
        calcWeeklyMomentum recs tc ws = min ((weekCompletions recs ws : Int) + 20) 40 ∧
        calcWeeklyMomentum recs tc ws ≤ 40) := by
  refine ⟨rfl, ?_⟩
  intro recs tc ws h
  rw [calcWeekly_eq, if_pos h]
  constructor
  · intro hp
    rw [if_neg (by omega)]
  · intro hp
    rw [if_pos hp]
    constructor
    · congr 1
    · exact min_le_right _ _

/-- Witness for C4 at concrete inputs: 20 completions against target 2
with the prior week also at target yields min(40, 40) = 40, and with a
below-target prior week yields 30. -/
theorem weekly_target_bonus_spec_witness :
    calcWeeklyMomentum [⟨0, 2, 12⟩, ⟨7, 20, 0⟩] (some 2) 7 =
        min ((20 : Int) + 20) 40 ∧
      calcWeeklyMomentum [⟨0, 1, 1⟩, ⟨7, 20, 0⟩] (some 2) 7 = (20 : Int) + 10 := by
  have h1 := (weekly_target_bonus_spec.2 [⟨0, 2, 12⟩, ⟨7, 20, 0⟩] (some 2) 7
    (by decide)).2 (by decide)
  have h2 := (weekly_target_bonus_spec.2 [⟨0, 1, 1⟩, ⟨7, 20, 0⟩] (some 2) 7
    (by decide)).1 (by decide)
  constructor
  · have hc : weekCompletions [⟨0, 2, 12⟩, ⟨7, 20, 0⟩] 7 = 20 := by decide
    rw [hc] at h1
    exact h1.1
  · have hc : weekCompletions [⟨0, 1, 1⟩, ⟨7, 20, 0⟩] 7 = 20 := by decide
    rw [hc] at h2
    exact h2

/-- C5 counterexample: a week with 1 completion against target 3, after a
week that also missed the target with 1 completion, is penalized as a
consecutive miss: the calculator returns 1 - 10 = -9, not the summed
completions 1. -/
theorem weekly_partial_not_face_value_cex :
    calcWeeklyMomentum [⟨0, 1, 1⟩, ⟨7, 1, 1⟩] (some 3) 7 = -9 ∧
      ¬ calcWeeklyMomentum [⟨0, 1, 1⟩, ⟨7, 1, 1⟩] (some 3) 7 = 1 := by
  refine ⟨by decide, by decide⟩

/-- C5 amended: a week with completions at least 1 but below target
returns exactly the summed completions only when the immediately
preceding week reached its target; when the preceding week also missed
its target, the consecutive-miss penalty inferred from the most recent
stored record is added to the summed completions. -/
theorem weekly_partial_spec :
    ∀ (recs : List HabitRecord) (tc : Option Nat) (ws : Int),
      weekCompletions recs ws < effTarget tc →
      (effTarget tc ≤ weekCompletions recs (ws - 7) →
        calcWeeklyMomentum recs tc ws = (weekCompletions recs ws : Int)) ∧
      (weekCompletions recs (ws - 7) < effTarget tc →
        calcWeeklyMomentum recs tc ws = (weekCompletions recs ws : Int) +
          missPenalty (consecutiveMissCount
            ((weekWindow recs ws).filter (fun r => decide (r.date < ws)))
            (weekCompletions recs ws) (weekCompletions recs (ws - 7)))) := by
  intro recs tc ws h
  rw [calcWeekly_eq, if_neg (by omega)]
  constructor
  · intro hp
    rw [if_neg (by omega)]
  · intro hp
    rw [if_pos (by omega)]

/-- Witness for C5 amended at concrete inputs: 1 completion against
target 3 after a target-reaching week of 3 completions is returned at
face value 1. -/
theorem weekly_partial_spec_witness :
    calcWeeklyMomentum [⟨0, 3, 13⟩, ⟨7, 1, 1⟩] (some 3) 7 = 1 := by
  have h := (weekly_partial_spec [⟨0, 3, 13⟩, ⟨7, 1, 1⟩] (some 3) 7 (by decide)).1 (by decide)
  have hc : weekCompletions [⟨0, 3, 13⟩, ⟨7, 1, 1⟩] 7 = 1 := by decide
  rw [hc] at h
  exact h

/-- C3 counterexample: a zero-completion week immediately after a week
with 1 completion (at least one, but below the default target 2) is
penalized -10 by the weekly calculator instead of returning 0; the
first-miss 0 applies only after a week that reached its target. -/
theorem weekly_first_miss_cex :
    calcWeeklyMomentum [⟨0, 1, 1⟩] none 7 = -10 ∧
      ¬ calcWeeklyMomentum [⟨0, 1, 1⟩] none 7 = 0 := by
  refine ⟨by decide, by decide⟩

/-- Reference trajectory of consecutive zero-completion weeks: week j
(j = 0, 1, ...) starts at day 7j, the week ending at day -1 reached the
default target with 2 completions, and each missed week gets the record
the weekly cron synthesizes at its last day (completed 0, the calculator
momentum). -/
def weeklyMissState : Nat → List HabitRecord
  | 0 => [⟨-1, 2, 12⟩]
  | j + 1 =>
    weeklyMissState j ++
      [⟨7 * (j : Int) + 6, 0,
        calcWeeklyMomentum (weeklyMissState j) none (7 * (j : Int))⟩]

/-- The weekly calculator momentum of missed week j of the reference
trajectory. -/
def weeklyMissMomentum (j : Nat) : Int :=
  calcWeeklyMomentum (weeklyMissState j) none (7 * (j : Int))

lemma weeklyMissState_dates :
    ∀ j, ∀ r ∈ weeklyMissState j, r.date ≤ 7 * (j : Int) - 1 := by
  intro j
  induction j with
  | zero =>
    intro r hr
    simp only [weeklyMissState, List.mem_singleton] at hr
    subst hr
    show (-1 : Int) ≤ 7 * ((0 : Nat) : Int) - 1
    norm_num
  | succ j ih =>
    intro r hr
    simp only [weeklyMissState, List.mem_append, List.mem_singleton] at hr
    rcases hr with hr | hr
    · have := ih r hr
      have hc : ((j + 1 : Nat) : Int) = (j : Int) + 1 := by push_cast; ring
      rw [hc]
      omega
    · subst hr
      show 7 * (j : Int) + 6 ≤ 7 * ((j + 1 : Nat) : Int) - 1
      push_cast
      omega

lemma weekWindow_missState (j : Nat) :
    weekWindow (weeklyMissState (j + 1)) (7 * ((j + 1 : Nat) : Int)) =
      [⟨7 * (j : Int) + 6, 0, weeklyMissMomentum j⟩] := by
  unfold weekWindow
  have hstate : weeklyMissState (j + 1) =
      weeklyMissState j ++ [⟨7 * (j : Int) + 6, 0, weeklyMissMomentum j⟩] := rfl
  rw [hstate, List.filter_append]
  have h1 : (weeklyMissState j).filter
      (fun r => decide (7 * ((j + 1 : Nat) : Int) - 7 ≤ r.date ∧
        r.date ≤ 7 * ((j + 1 : Nat) : Int) + 6)) = [] := by
    rw [List.filter_eq_nil_iff]
    intro r hr
    have := weeklyMissState_dates j r hr
    simp only [decide_eq_true_eq]
    push_cast
    omega
  have h2 : ([⟨7 * (j : Int) + 6, 0, weeklyMissMomentum j⟩] :
      List HabitRecord).filter
      (fun r => decide (7 * ((j + 1 : Nat) : Int) - 7 ≤ r.date ∧
        r.date ≤ 7 * ((j + 1 : Nat) : Int) + 6)) =
      [⟨7 * (j : Int) + 6, 0, weeklyMissMomentum j⟩] := by
    simp only [List.filter_cons, List.filter_nil, decide_eq_true_eq]
    rw [if_pos]
    constructor
    · show 7 * ((j + 1 : Nat) : Int) - 7 ≤ 7 * (j : Int) + 6
      push_cast
      omega
    · show 7 * (j : Int) + 6 ≤ 7 * ((j + 1 : Nat) : Int) + 6
      push_cast
      omega
  rw [h1, h2]
  rfl

lemma weeklyFromWindow_singleton_deep_miss (ws m : Int) (hm : m ≤ -20) :
    weeklyFromWindow [⟨ws - 1, 0, m⟩] none ws = -30 := by
  have hcur : ([⟨ws - 1, 0, m⟩] : List HabitRecord).filter
      (fun r => decide (ws ≤ r.date ∧ r.date ≤ ws + 6)) = [] := by
    simp only [List.filter_cons, List.filter_nil, decide_eq_true_eq]
    rw [if_neg]
    intro h
    have h1 : ws ≤ ws - 1 := h.1
    omega
  have hprev : ([⟨ws - 1, 0, m⟩] : List HabitRecord).filter
      (fun r => decide (ws - 7 ≤ r.date ∧ r.date ≤ ws - 1)) = [⟨ws - 1, 0, m⟩] := by
    simp only [List.filter_cons, List.filter_nil, decide_eq_true_eq]
    rw [if_pos]
    exact ⟨by show ws - 7 ≤ ws - 1; omega, by show ws - 1 ≤ ws - 1; omega⟩
  have hbefore : ([⟨ws - 1, 0, m⟩] : List HabitRecord).filter
      (fun r => decide (r.date < ws)) = [⟨ws - 1, 0, m⟩] := by
    simp only [List.filter_cons, List.filter_nil, decide_eq_true_eq]
    rw [if_pos]
    show ws - 1 < ws
    omega
  have hcm : consecutiveMissCount [⟨ws - 1, 0, m⟩] 0 0 = 4 := by
    unfold consecutiveMissCount latestOf
    simp only [List.foldl_cons, List.foldl_nil]
    rw [if_pos (by show m < ((0 : Nat) : Int); omega)]
    rw [if_neg (by show ¬ m - ((0 : Nat) : Int) = 0; omega),
      if_neg (by show ¬ m - ((0 : Nat) : Int) = -10; omega),
      if_pos (by show m - ((0 : Nat) : Int) ≤ -20; omega)]
  unfold weeklyFromWindow
  rw [hcur, hprev, hbefore]
  show (if effTarget none ≤ sumCompleted [] then _ else _) = -30
  have hs0 : sumCompleted ([] : List HabitRecord) = 0 := rfl
  have hs1 : sumCompleted [⟨ws - 1, 0, m⟩] = 0 := rfl
  rw [hs0, hs1]
  rw [if_neg (by decide : ¬ effTarget none ≤ 0), if_pos (by decide : ¬ effTarget none ≤ 0)]
  rw [hcm]
  decide

lemma weeklyMissMomentum_succ_of_deep (j : Nat) (h : weeklyMissMomentum j ≤ -20) :
    weeklyMissMomentum (j + 1) = -30 := by
  unfold weeklyMissMomentum calcWeeklyMomentum
  rw [weekWindow_missState]
  have hdate : (7 * (j : Int) + 6) = 7 * ((j + 1 : Nat) : Int) - 1 := by push_cast; ring
  rw [hdate]
  exact weeklyFromWindow_singleton_deep_miss _ _ h

lemma weeklyMissMomentum_deep : ∀ k, weeklyMissMomentum (k + 3) = -30 := by
  intro k
  induction k with
  | zero => decide
  | succ k ih =>
    have hle : weeklyMissMomentum (k + 3) ≤ -20 := by rw [ih]; norm_num
    have h := weeklyMissMomentum_succ_of_deep (k + 3) hle
    have heq : k + 1 + 3 = (k + 3) + 1 := by omega
    rw [heq, h]

lemma one_le_effTarget (tc : Option Nat) : 1 ≤ effTarget tc := by
  rcases tc with _ | n
  · decide
  · rcases n with _ | n
    · decide
    · simp [effTarget]

lemma missPenalty_cases (cm : Nat) :
    missPenalty cm = 0 ∨ missPenalty cm = -10 ∨ missPenalty cm = -20 ∨
      missPenalty cm = -30 := by
  unfold missPenalty
  split_ifs <;> simp

/-- C3 amended: a zero-completion week returns 0 when the preceding week
reached its target (a zero week after a below-target nonzero week is
already treated as consecutive miss number 2); the value of a
zero-completion week is always one of 0, -10, -20, -30, and along the
reference run of consecutive zero-completion weeks after a target-met
week the calculator produces 0, -10, -20 and then -30 for every later
week, never below -30 and never skipping a rung. -/
theorem weekly_miss_ladder_spec :
    (∀ (recs : List HabitRecord) (tc : Option Nat) (ws : Int),
      weekCompletions recs ws = 0 →
      (effTarget tc ≤ weekCompletions recs (ws - 7) →
        calcWeeklyMomentum recs tc ws = 0) ∧
      (calcWeeklyMomentum recs tc ws = 0 ∨ calcWeeklyMomentum recs tc ws = -10 ∨
        calcWeeklyMomentum recs tc ws = -20 ∨ calcWeeklyMomentum recs tc ws = -30)) ∧
    weeklyMissMomentum 0 = 0 ∧ weeklyMissMomentum 1 = -10 ∧
    weeklyMissMomentum 2 = -20 ∧ (∀ j, 3 ≤ j → weeklyMissMomentum j = -30) := by
  refine ⟨?_, by decide, by decide, by decide, ?_⟩
  · intro recs tc ws h
    have htr : ¬ effTarget tc ≤ weekCompletions recs ws := by
      rw [h]
      have := one_le_effTarget tc
      omega
    constructor
    · intro hp
      rw [calcWeekly_eq, if_neg htr, if_neg (by omega), h]
      rfl
    · rw [calcWeekly_eq, if_neg htr]
      by_cases hp : effTarget tc ≤ weekCompletions recs (ws - 7)
      · rw [if_neg (by omega), h]
        left
        rfl
      · rw [if_pos (by omega), h]
        have := missPenalty_cases (consecutiveMissCount
          ((weekWindow recs ws).filter (fun r => decide (r.date < ws)))
          0 (weekCompletions recs (ws - 7)))
        rcases this with h0 | h0 | h0 | h0 <;> rw [h0] <;> simp
  · intro j hj
    have heq : j = (j - 3) + 3 := by omega
    rw [heq]
    exact weeklyMissMomentum_deep (j - 3)

/-- Witness for C3 amended at concrete inputs: a zero-completion week
right after a target-met week gets 0, and missed week 6 of the reference
run has momentum -30. -/
theorem weekly_miss_ladder_spec_witness :
    calcWeeklyMomentum [⟨-1, 2, 12⟩] none 0 = 0 ∧ weeklyMissMomentum 6 = -30 :=
  ⟨(weekly_miss_ladder_spec.1 [⟨-1, 2, 12⟩] none 0 (by decide)).1 (by decide),
    weekly_miss_ladder_spec.2.2.2.2 6 (by decide)⟩

/-- The pair returned by a sweep pass: how many habits got a synthesized
record, and how many raised an error. -/
structure SweepResult where
  processed : Nat
  errors : Nat
deriving DecidableEq, Repr

/-- The per-habit loop shared by processDailyMissedHabits and
processWeeklyMissedHabits: each habit's evaluation and write runs inside
its own try/catch against the store state; on success the step reports
whether it synthesized a record (incrementing processed) and the new
state, on error the errors tally is incremented and the loop continues
with the remaining habits on the unchanged state. -/
def sweepHabitsLoop {H St E : Type} (step : H → St → Except E (Bool × St)) :
    List H → St → SweepResult × St
  | [], s => (⟨0, 0⟩, s)
  | h :: hs, s =>
    match step h s with
    | .ok (did, s₁) =>
      (⟨(if did then 1 else 0) + (sweepHabitsLoop step hs s₁).1.processed,
        (sweepHabitsLoop step hs s₁).1.errors⟩,
        (sweepHabitsLoop step hs s₁).2)
    | .error _ =>
      (⟨(sweepHabitsLoop step hs s).1.processed,
        (sweepHabitsLoop step hs s).1.errors + 1⟩,
        (sweepHabitsLoop step hs s).2)

/-- A whole sweep pass: enumerating the habit list happens outside the
per-habit try/catch, so an enumeration failure propagates; otherwise the
per-habit loop runs to completion and the pass returns its tallies. -/
def runSweepPass {H St E : Type} (enumerate : Except E (List H))
    (step : H → St → Except E (Bool × St)) (s₀ : St) :
    Except E (SweepResult × St) :=
  match enumerate with
  | .error e => .error e
  | .ok hs => .ok (sweepHabitsLoop step hs s₀)

lemma sweepHabitsLoop_cons_ok {H St E : Type} (step : H → St → Except E (Bool × St))
    (h : H) (hs : List H) (s s₁ : St) (did : Bool) (hstep : step h s = .ok (did, s₁)) :
    sweepHabitsLoop step (h :: hs) s =
      (⟨(if did then 1 else 0) + (sweepHabitsLoop step hs s₁).1.processed,
        (sweepHabitsLoop step hs s₁).1.errors⟩,
        (sweepHabitsLoop step hs s₁).2) := by
  simp only [sweepHabitsLoop, hstep]

lemma sweepHabitsLoop_cons_err {H St E : Type} (step : H → St → Except E (Bool × St))
    (h : H) (hs : List H) (s : St) (e : E) (hstep : step h s = .error e) :
    sweepHabitsLoop step (h :: hs) s =
      (⟨(sweepHabitsLoop step hs s).1.processed,
        (sweepHabitsLoop step hs s).1.errors + 1⟩,
        (sweepHabitsLoop step hs s).2) := by
  simp only [sweepHabitsLoop, hstep]

/-- C7: a sweep pass isolates habits: a failing enumeration propagates
as an error; with a successful enumeration the pass always returns ok
with the loop tallies; the loop splits over list concatenation with
processed and errors adding up (an error in the middle does not abort
the tail); a single failing habit contributes exactly one error and no
processed count and leaves the state unchanged, and a single successful
habit contributes its processed flag and no error. -/
theorem sweep_isolation_spec :
    (∀ (H St E : Type) (e : E) (step : H → St → Except E (Bool × St)) (s₀ : St),
      runSweepPass (.error e) step s₀ = .error e) ∧
    (∀ (H St E : Type) (hs : List H) (step : H → St → Except E (Bool × St)) (s₀ : St),
      runSweepPass (.ok hs) step s₀ = .ok (sweepHabitsLoop step hs s₀)) ∧
    (∀ (H St E : Type) (step : H → St → Except E (Bool × St)) (l₁ l₂ : List H) (s₀ : St),
      sweepHabitsLoop step (l₁ ++ l₂) s₀ =
        (⟨(sweepHabitsLoop step l₁ s₀).1.processed +
            (sweepHabitsLoop step l₂ (sweepHabitsLoop step l₁ s₀).2).1.processed,
          (sweepHabitsLoop step l₁ s₀).1.errors +
            (sweepHabitsLoop step l₂ (sweepHabitsLoop step l₁ s₀).2).1.errors⟩,
          (sweepHabitsLoop step l₂ (sweepHabitsLoop step l₁ s₀).2).2)) ∧
    (∀ (H St E : Type) (step : H → St → Except E (Bool × St)) (h : H) (s : St) (e : E),
      step h s = .error e → sweepHabitsLoop step [h] s = (⟨0, 1⟩, s)) ∧
    (∀ (H St E : Type) (step : H → St → Except E (Bool × St)) (h : H) (s s₁ : St)
      (did : Bool), step h s = .ok (did, s₁) →
      sweepHabitsLoop step [h] s = (⟨if did then 1 else 0, 0⟩, s₁)) := by
  refine ⟨fun _ _ _ _ _ _ => rfl, fun _ _ _ _ _ _ => rfl, ?_, ?_, ?_⟩
  · intro H St E step l₁ l₂ s₀
    induction l₁ generalizing s₀ with
    | nil => simp [sweepHabitsLoop]
    | cons h hs ih =>
      rw [List.cons_append]
      cases hstep : step h s₀ with
      | ok p =>
        rcases p with ⟨did, s₁⟩
        rw [sweepHabitsLoop_cons_ok step h (hs ++ l₂) s₀ s₁ did hstep,
          sweepHabitsLoop_cons_ok step h hs s₀ s₁ did hstep, ih s₁]
        simp [Prod.mk.injEq, SweepResult.mk.injEq]
        omega
      | error e =>
        rw [sweepHabitsLoop_cons_err step h (hs ++ l₂) s₀ e hstep,
          sweepHabitsLoop_cons_err step h hs s₀ e hstep, ih s₀]
        simp [Prod.mk.injEq, SweepResult.mk.injEq]
        omega
  · intro H St E step h s e hstep
    rw [sweepHabitsLoop_cons_err step h [] s e hstep]
    rfl
  · intro H St E step h s s₁ did hstep
    rw [sweepHabitsLoop_cons_ok step h [] s s₁ did hstep]
    rfl

/-- A concrete fallible per-habit step used to witness the sweep
theorems: habit 2 always fails, every other habit appends its id to the
store and reports a synthesized record. -/
def toyStep (h : Nat) (s : List Nat) : Except Unit (Bool × List Nat) :=
  if h = 2 then .error () else .ok (true, s ++ [h])

/-- Witness for C7 at concrete inputs: over habits [1, 2, 3] with habit 2
failing, the pass returns processed = 2, errors = 1, both successful
habits are persisted, and a failing enumeration propagates. -/
theorem sweep_isolation_spec_witness :
    runSweepPass (E := Unit) (.error ()) toyStep ([] : List Nat) = .error () ∧
      sweepHabitsLoop toyStep [2] [1] = (⟨0, 1⟩, [1]) ∧
      sweepHabitsLoop toyStep ([1] ++ 2 :: [3]) [] = (⟨2, 1⟩, [1, 3]) := by
  refine ⟨sweep_isolation_spec.1 Nat (List Nat) Unit () toyStep [],
    sweep_isolation_spec.2.2.2.1 Nat (List Nat) Unit toyStep 2 [1] () rfl, ?_⟩
  have h := sweep_isolation_spec.2.2.1 Nat (List Nat) Unit toyStep [1] (2 :: [3]) []
  rw [h]
  rfl

/-- A record tagged with its habit id, as returned by the user-scoped
record queries. -/
structure URecord where
  habitId : Nat
  date : Int
  completed : Nat
  momentum : Int
deriving DecidableEq, Repr

/-- A habit row as fetched by getUserHabits: id, optional weekly target
and the cached accumulated momentum. -/
structure UserHabit where
  id : Nat
  targetCount : Option Nat
  accumulatedMomentum : Int
deriving DecidableEq, Repr

/-- The stored state read by getMomentumHistory: the user's non-archived
daily and weekly habits and all of their records. -/
structure UserState where
  dailyHabits : List UserHabit
  weeklyHabits : List UserHabit
  records : List URecord
deriving DecidableEq, Repr

/-- Grouping of the user's records by habit id (recordsByHabitId). -/
def recordsOf (st : UserState) (hid : Nat) : List URecord :=
  st.records.filter (fun r => r.habitId == hid)

/-- Per-date lookup in a habit's records (recordsByHabitAndDate). -/
def findRecordOn (recs : List URecord) (d : Int) : Option URecord :=
  recs.find? (fun r => r.date == d)

/-- Sum of the completed fields of user records. -/
def sumCompletedU (recs : List URecord) : Nat :=
  recs.foldl (fun s r => s + r.completed) 0

/-- First user record with the maximal date (head of a stable descending
sort by date). -/
def latestOfU (recs : List URecord) : Option URecord :=
  recs.foldl
    (fun acc r =>
      match acc with
      | none => some r
      | some b => if b.date < r.date then some r else some b)
    none

/-- Monday-based week start of a day number (getDateRangeForWeek with
day numbers chosen so that Mondays are exactly the multiples of 7). -/
def weekStartOf (d : Int) : Int := d - d % 7

/-- The inline weekly momentum computation of getMomentumHistory for one
habit and one week: completions plus target bonuses capped at 40, or the
consecutive-miss penalty inferred from the most recent record before the
week (no guard against the current completions here, unlike the
standalone weekly calculator). -/
def historyWeekMomentum (recs : List URecord) (targetCount : Option Nat)
    (ws : Int) : Int :=
  let completions := sumCompletedU
    (recs.filter (fun r => decide (ws ≤ r.date ∧ r.date ≤ ws + 6)))
  let prevCompletions := sumCompletedU
    (recs.filter (fun r => decide (ws - 7 ≤ r.date ∧ r.date ≤ ws - 1)))
  let target := effTarget targetCount
  if target ≤ completions then
    if target ≤ prevCompletions then min ((completions : Int) + 10 + 10) 40
    else (completions : Int) + 10
  else if ¬ target ≤ prevCompletions then
    let cm :=
      match latestOfU (recs.filter (fun r => decide (r.date < ws))) with
      | none => 1
      | some last =>
        if last.momentum - (prevCompletions : Int) = 0 then 2
        else if last.momentum - (prevCompletions : Int) = -10 then 3
        else if last.momentum - (prevCompletions : Int) ≤ -20 then 4
        else 1
    (completions : Int) + missPenalty cm
  else
    (completions : Int)

/-- The per-habit running state of the history loop: accumulated daily
momentum, accumulated weekly momentum (initialized from the habit rows),
and the set of already processed (habit, week) pairs. -/
structure HistAcc where
  dailyAcc : Nat → Int
  weeklyAcc : Nat → Int
  processedWeeks : Nat → Int → Bool

/-- One date of the getMomentumHistory loop: every daily habit with a
record on this date inside the range adds the delta against the previous
day's record to its accumulator; every weekly habit adds its week
momentum to its accumulator the first time its week is seen; the day's
entry is the sum of all accumulators after these updates. -/
def historyDay (st : UserState) (startD endD : Int) (acc : HistAcc) (d : Int) :
    HistAcc × Int :=
  let dstep := st.dailyHabits.foldl
    (fun (p : (Nat → Int) × Int) h =>
      let hrecs := recordsOf st h.id
      let a :=
        match findRecordOn hrecs d with
        | some tr =>
          if startD ≤ tr.date ∧ tr.date ≤ endD then
            let oldM :=
              match findRecordOn hrecs (d - 1) with
              | some pr => pr.momentum
              | none => 0
            fun x => if x = h.id then p.1 h.id + (tr.momentum - oldM) else p.1 x
          else p.1
        | none => p.1
      (a, p.2 + a h.id))
    (acc.dailyAcc, 0)
  let ws := weekStartOf d
  let wstep := st.weeklyHabits.foldl
    (fun (p : (Nat → Int) × (Nat → Int → Bool) × Int) h =>
      if ¬ p.2.1 h.id ws = true ∧ ws ≤ endD ∧ startD ≤ ws + 6 then
        let wm := historyWeekMomentum (recordsOf st h.id) h.targetCount ws
        let wa := fun x => if x = h.id then p.1 h.id + wm else p.1 x
        (wa, fun x w => if x = h.id ∧ w = ws then true else p.2.1 x w,
          p.2.2 + wa h.id)
      else (p.1, p.2.1, p.2.2 + p.1 h.id))
    (acc.weeklyAcc, acc.processedWeeks, 0)
  (⟨dstep.1, wstep.1, wstep.2.1⟩, dstep.2 + wstep.2.2)

/-- One output entry of the momentum history: a date and the total
momentum shown for that date. -/
structure HistEntry where
  date : Int
  momentum : Int
deriving DecidableEq, Repr

/-- The date loop of getMomentumHistory: one entry per date, threading
the accumulator state from day to day. -/
def historyLoop (st : UserState) (startD endD : Int) :
    HistAcc → List Int → List HistEntry
  | _, [] => []
  | acc, d :: ds =>
    ⟨d, (historyDay st startD endD acc d).2⟩ ::
      historyLoop st startD endD (historyDay st startD endD acc d).1 ds

/-- The date range generated by getMomentumHistory: the days from
today - (days - 1) through today, oldest first (empty when days = 0). -/
def dateArrayFor (today : Int) (days : Nat) : List Int :=
  (List.range days).map (fun i : Nat => today - ((days : Int) - 1) + (i : Int))

/-- The initial accumulator of the history loop: daily accumulators
start at 0, weekly accumulators start at the habit's stored accumulated
momentum, and no week has been processed. -/
def initHistAcc (st : UserState) : HistAcc :=
  ⟨fun _ => 0,
    fun hid =>
      ((st.weeklyHabits.find? (fun h => h.id == hid)).map
        (fun h => h.accumulatedMomentum)).getD 0,
    fun _ _ => false⟩

/-- getMomentumHistory from lib/habits.ts: empty when the user has no
habits, otherwise one entry per day of the range ending today. -/
def getMomentumHistory (st : UserState) (today : Int) (days : Nat) :
    List HistEntry :=
  if (st.dailyHabits ++ st.weeklyHabits).length = 0 then []
  else
    historyLoop st (today - ((days : Int) - 1)) today (initHistAcc st)
      (dateArrayFor today days)

/-- getUserTotalMomentum from lib/habits.ts: the momentum of the last
entry of the 30-day momentum history, or 0 when the history is empty. -/
def getUserTotalMomentum (st : UserState) (today : Int) : Int :=
  match (getMomentumHistory st today 30).getLast? with
  | none => 0
  | some e => e.momentum

lemma historyLoop_dates (st : UserState) (s e : Int) :
    ∀ (ds : List Int) (acc : HistAcc),
      (historyLoop st s e acc ds).map (fun x => x.date) = ds := by
  intro ds
  induction ds with
  | nil => intro acc; rfl
  | cons d ds ih =>
    intro acc
    simp only [historyLoop, List.map_cons, ih]

lemma map_range_getLast (f : Nat → Int) (n : Nat) (h : 1 ≤ n) :
    ((List.range n).map f).getLast? = some (f (n - 1)) := by
  rw [List.getLast?_eq_getElem?]
  simp only [List.length_map, List.length_range]
  rw [List.getElem?_map]
  simp only [List.getElem?_range (by omega : n - 1 < n)]
  rfl

lemma dateArrayFor_length (today : Int) (days : Nat) :
    (dateArrayFor today days).length = days := by
  unfold dateArrayFor
  rw [List.length_map, List.length_range]

lemma dateArrayFor_getLast (today : Int) (days : Nat) (h : 1 ≤ days) :
    (dateArrayFor today days).getLast? = some today := by
  unfold dateArrayFor
  rw [map_range_getLast _ _ h]
  congr 1
  have hc : ((days - 1 : Nat) : Int) = (days : Int) - 1 := by push_cast [h]; ring
  rw [hc]
  ring

lemma dateArrayFor_chain (today : Int) (days : Nat) :
    List.Chain' (fun a b => b = a + 1) (dateArrayFor today days) := by
  unfold dateArrayFor
  rcases days with _ | n
  · simp
  · apply List.chain'_map_of_chain' _ ?_ ?_
    · exact fun a b : Nat => b = a + 1
    · intro a b hab
      subst hab
      push_cast
      ring
    · rw [List.chain'_range_succ]
      intro m hm
      rfl

lemma getMomentumHistory_no_habits (st : UserState) (today : Int) (days : Nat)
    (h1 : st.dailyHabits = []) (h2 : st.weeklyHabits = []) :
    getMomentumHistory st today days = [] := by
  unfold getMomentumHistory
  rw [if_pos (by rw [h1, h2]; rfl)]

/-- C9 counterexample: for a user with no habits the momentum history is
the empty list, not a sequence of length days. -/
theorem history_no_habits_cex :
    getMomentumHistory ⟨[], [], []⟩ 100 30 = [] ∧
      ¬ (getMomentumHistory ⟨[], [], []⟩ 100 30).length = 30 := by
  refine ⟨rfl, by decide⟩

/-- C9 amended: for a user with no habits the history is empty; for a
user with at least one habit and any days count, the history has exactly
days entries, its dates are exactly the days from today - (days - 1)
through today in that order (one per calendar day, consecutive,
oldest first), and for days at least 1 it ends at today. -/
theorem momentum_history_shape_spec :
    ∀ (st : UserState) (today : Int) (days : Nat),
      (st.dailyHabits = [] → st.weeklyHabits = [] →
        getMomentumHistory st today days = []) ∧
      (¬ (st.dailyHabits ++ st.weeklyHabits).length = 0 →
        (getMomentumHistory st today days).length = days ∧
        (getMomentumHistory st today days).map (fun x => x.date) =
          dateArrayFor today days ∧
        (1 ≤ days →
          ((getMomentumHistory st today days).map (fun x => x.date)).getLast? =
            some today) ∧
        List.Chain' (fun a b => b = a + 1)
          ((getMomentumHistory st today days).map (fun x => x.date))) := by
  intro st today days
  constructor
  · intro h1 h2
    exact getMomentumHistory_no_habits st today days h1 h2
  · intro hne
    have hunf : getMomentumHistory st today days =
        historyLoop st (today - ((days : Int) - 1)) today (initHistAcc st)
          (dateArrayFor today days) := by
      unfold getMomentumHistory
      rw [if_neg hne]
    have hmap : (getMomentumHistory st today days).map (fun x => x.date) =
        dateArrayFor today days := by
      rw [hunf]
      exact historyLoop_dates st _ _ _ _
    refine ⟨?_, hmap, ?_, ?_⟩
    · have hlm := congrArg List.length hmap
      simp only [List.length_map] at hlm
      rw [hlm, dateArrayFor_length]
    · intro hdays
      rw [hmap, dateArrayFor_getLast _ _ hdays]
    · rw [hmap]
      exact dateArrayFor_chain today days

/-- Witness for C9 amended at concrete inputs: a user with no habits
gets [], and a user with one daily habit gets 30 consecutive dated
entries ending at day 50. -/
theorem momentum_history_shape_spec_witness :
    getMomentumHistory ⟨[], [], []⟩ 50 30 = [] ∧
      (getMomentumHistory ⟨[⟨1, none, 0⟩], [], []⟩ 50 30).length = 30 ∧
      ((getMomentumHistory ⟨[⟨1, none, 0⟩], [], []⟩ 50 30).map
        (fun x => x.date)).getLast? = some 50 :=
  ⟨(momentum_history_shape_spec ⟨[], [], []⟩ 50 30).1 rfl rfl,
    ((momentum_history_shape_spec ⟨[⟨1, none, 0⟩], [], []⟩ 50 30).2
      (by decide)).1,
    ((momentum_history_shape_spec ⟨[⟨1, none, 0⟩], [], []⟩ 50 30).2
      (by decide)).2.2.1 (by decide)⟩

/-- C10: over a fixed stored state the user's total momentum equals the
momentum of the last entry of the 30-day momentum history, and is 0 for
a user with no habits (empty history). -/
theorem total_momentum_eq_history_spec :
    ∀ (st : UserState) (today : Int),
      (∀ x, (getMomentumHistory st today 30).getLast? = some x →
        getUserTotalMomentum st today = x.momentum) ∧
      (getMomentumHistory st today 30 = [] → getUserTotalMomentum st today = 0) ∧
      (st.dailyHabits = [] → st.weeklyHabits = [] →
        getUserTotalMomentum st today = 0) := by
  intro st today
  refine ⟨?_, ?_, ?_⟩
  · intro x hx
    unfold getUserTotalMomentum
    rw [hx]
  · intro h
    unfold getUserTotalMomentum
    rw [h]
    rfl
  · intro h1 h2
    have h := getMomentumHistory_no_habits st today 30 h1 h2
    unfold getUserTotalMomentum
    rw [h]
    rfl

/-- Witness for C10 at concrete inputs: a user with one recordless daily
habit has total momentum equal to the momentum of the last history
entry (day 5, momentum 0), and a user with no habits has total 0. -/
theorem total_momentum_eq_history_spec_witness :
    getUserTotalMomentum ⟨[⟨1, none, 0⟩], [], []⟩ 5 =
        (HistEntry.mk 5 0).momentum ∧
      getUserTotalMomentum ⟨[], [], []⟩ 5 = 0 :=
  ⟨(total_momentum_eq_history_spec ⟨[⟨1, none, 0⟩], [], []⟩ 5).1 ⟨5, 0⟩ (by decide),
    (total_momentum_eq_history_spec ⟨[], [], []⟩ 5).2.2 rfl rfl⟩
